import Mathlib

set_option maxRecDepth 16000

/-!
Verification development for the blockweave daemon.

This file gives a shallow embedding, in Lean 4, of the parts of the C++
source relevant to the frozen claims: the ledger (`CBlockweave` in
`src/blockcore/blockweave.cpp`), blocks and proof-of-work (`CBlock` in
`src/core/block.cpp`), transactions (`CTransaction` in
`src/transaction.cpp`), the request queue and the REST request handlers
(`src/rest/rest_api.cpp`).

Modelling conventions:
* C++ `std::string` is Lean `String`; scanning primitives such as
  `std::string::find` are re-implemented over `List Char`.
* Machine integers (`int64_t`, `uint64_t`, `size_t`) are `Int`/`Nat`;
  none of the modelled arithmetic can overflow at the values the claims
  exercise, except where an explicit `% 256` models an `unsigned char`
  narrowing in the base64 decoder.
* The external SHA-256 digest (`CHash(std::string)`) is an abstract
  parameter `H : String → String`; no claim depends on concrete digest
  values.
* Wall-clock timestamps and random draws (`std::mt19937` nonces, the
  recall index, the generated UUID) are explicit oracle parameters.
* The unbounded proof-of-work loop `CBlock::Mine` is modelled as a
  search over an explicit finite list of nonce draws, returning `none`
  when the list is exhausted (the C++ loop would simply keep drawing).
-/

/-! ## String scanning primitives (modelling `std::string::find` etc.) -/

/-- Boolean test that `pat` is a prefix of `l`. -/
def listIsPref : List Char → List Char → Bool
  | [], _ => true
  | _ :: _, [] => false
  | p :: ps, c :: cs => p = c && listIsPref ps cs

/-- Model of `std::string::find(pat)`: index of the first occurrence of
`pat` in `l`, or `none` for `npos`. An empty pattern matches at 0, as in
C++. -/
def findSub (pat : List Char) : List Char → Option Nat
  | [] => if pat = [] then some 0 else none
  | c :: cs =>
    if listIsPref pat (c :: cs) then some 0
    else (findSub pat cs).map (· + 1)

/-- Model of `std::string::find(pat, from)`. -/
def findSubFrom (l : List Char) (i : Nat) (pat : List Char) : Option Nat :=
  (findSub pat (l.drop i)).map (· + i)

/-- Model of `str.find(pat) != std::string::npos` on whole strings. -/
def strContains (s pat : String) : Bool :=
  (findSub pat.data s.data).isSome

/-- Model of `str.substr(0, n)` (ASCII data throughout, so byte counts
and character counts agree). -/
def strTake (s : String) (n : Nat) : String :=
  String.mk (s.data.take n)

/-- Lexicographic byte-wise comparison, the C++ `std::string operator<`. -/
def listLt : List Char → List Char → Bool
  | _, [] => false
  | [], _ :: _ => true
  | a :: as1, b :: bs =>
    if a.toNat < b.toNat then true
    else if b.toNat < a.toNat then false
    else listLt as1 bs

/-- String comparison `a < b` as in C++. -/
def strLt (a b : String) : Bool := listLt a.data b.data

theorem listIsPref_append (p l t : List Char) (h : listIsPref p l = true) :
    listIsPref p (l ++ t) = true := by
  induction p generalizing l with
  | nil => simp [listIsPref]
  | cons c cs ih =>
    cases l with
    | nil => simp [listIsPref] at h
    | cons d ds =>
      simp only [listIsPref, Bool.and_eq_true, decide_eq_true_eq] at h ⊢
      exact ⟨h.1, ih ds h.2⟩

theorem findSub_append_left (pat a b : List Char)
    (h : (findSub pat a).isSome) : (findSub pat (a ++ b)).isSome := by
  induction a with
  | nil =>
    simp only [findSub] at h
    by_cases hp : pat = []
    · subst hp
      cases b <;> simp [findSub, listIsPref]
    · simp [hp] at h
  | cons c cs ih =>
    simp only [findSub, List.cons_append, List.append_eq] at h ⊢
    by_cases hpre : listIsPref pat (c :: cs) = true
    · have hpre2 : listIsPref pat (c :: (cs ++ b)) = true := by
        have := listIsPref_append pat (c :: cs) b hpre
        simpa using this
      simp [hpre2]
    · simp [hpre, Option.isSome_map] at h
      by_cases hpre2 : listIsPref pat (c :: (cs ++ b)) = true
      · simp [hpre2]
      · simp [hpre2, Option.isSome_map]
        exact ih h

theorem findSub_append_right (pat a b : List Char)
    (h : (findSub pat b).isSome) : (findSub pat (a ++ b)).isSome := by
  induction a with
  | nil => simpa using h
  | cons c cs ih =>
    simp only [List.cons_append, List.append_eq, findSub]
    by_cases hpre : listIsPref pat (c :: (cs ++ b)) = true
    · simp [hpre]
    · simp [hpre, Option.isSome_map]
      exact ih

/-- Containment is preserved when the containing string is extended on
either side; used to show fixed JSON fragments occur in responses that
also embed abstract digest output. -/
theorem strContains_append (a b : String) (pat : String)
    (h : strContains a pat = true ∨ strContains b pat = true) :
    strContains (a ++ b) pat = true := by
  have hdata : (a ++ b).data = a.data ++ b.data := String.data_append a b
  unfold strContains at h ⊢
  rw [hdata]
  rcases h with h | h
  · exact findSub_append_left _ _ _ h
  · exact findSub_append_right _ _ _ h

/-! ## Data model: transactions, blocks, ledger state -/

/-- Transaction record, mirroring `CTransaction` (`src/transaction.cpp`,
`src/core/transaction.h`). Payload bytes are `Nat` values below 256. -/
structure Tx where
  id : String
  owner : String
  target : String
  data : List Nat
  data_size : Nat
  reward : Nat
  timestamp : Int
  deriving DecidableEq, Repr, Inhabited

/-- Constructor `CTransaction::CTransaction`: the id is the digest of
owner ++ target ++ timestamp, and `m_n_data_size` is `data.size()`. The
wall-clock timestamp is an explicit parameter. -/
def mkTransaction (H : String → String) (owner target : String)
    (data : List Nat) (reward : Nat) (ts : Int) : Tx :=
  { id := H (owner ++ target ++ toString ts)
    owner := owner
    target := target
    data := data
    data_size := data.length
    reward := reward
    timestamp := ts }

/-- Block record, mirroring `CBlock` (`src/block.h`). Hashes are the hex
strings stored in `CHash::m_str_data`. -/
structure Block where
  hash : String
  prev : String
  recall_hash : String
  height : Int
  timestamp : Int
  txs : List Tx
  miner : String
  difficulty : Nat
  cumulative_data_size : Nat
  nonce : String
  deriving DecidableEq, Repr, Inhabited

/-- Value of a default-constructed `CHash`: 64 `'0'` characters. -/
def zeroHash : String := String.mk (List.replicate 64 '0')

/-- Constructor `CBlock::CBlock(prev_block, n_height, str_miner)`:
difficulty 1000, cumulative size 0, nonce "0", both `m_hash` and
`m_recall_block` left default-constructed (64 zeros). -/
def mkBlock (prev : String) (height : Int) (miner : String) (ts : Int) : Block :=
  { hash := zeroHash
    prev := prev
    recall_hash := zeroHash
    height := height
    timestamp := ts
    txs := []
    miner := miner
    difficulty := 1000
    cumulative_data_size := 0
    nonce := "0" }

/-- Method `CBlock::AddTransaction`: append the transaction and add its
payload size to the running `m_n_cumulative_data_size`. -/
def blockAddTx (b : Block) (tx : Tx) : Block :=
  { b with txs := b.txs ++ [tx],
           cumulative_data_size := b.cumulative_data_size + tx.data_size }

/-- Method `CBlock::SetRecallBlock`. -/
def setRecallBlock (b : Block) (r : String) : Block :=
  { b with recall_hash := r }

/-- Concatenated pre-nonce block data built at the top of `CBlock::Mine`:
previous hash ++ recall hash ++ height ++ timestamp ++ every transaction
id, in that order. -/
def blockDataOf (b : Block) : String :=
  b.prev ++ b.recall_hash ++ toString b.height ++ toString b.timestamp ++
    String.join (b.txs.map (fun tx => tx.id))

/-- Acceptance test of the proof-of-work loop: the first 4 characters of
the digest, compared lexicographically (as strings) against the literal
"0fff". -/
def acceptHash (h : String) : Bool :=
  strLt (strTake h 4) "0fff"

/-- Nonce search of `CBlock::Mine`: try the random draws in order,
appending the decimal rendering of each to the block data, and accept
the first digest passing `acceptHash`. Returns the accepted (nonce,
digest) pair, or `none` if the finite draw list is exhausted (the C++
loop would keep drawing forever). -/
def mineSearch (H : String → String) (data : String) : List Nat → Option (String × String)
  | [] => none
  | n :: ns =>
    let h := H (data ++ Nat.repr n)
    if acceptHash h then some (Nat.repr n, h) else mineSearch H data ns

/-- Method `CBlock::Mine` given its random nonce draws: on success the
block carries the accepted nonce and digest. -/
def blockMine (H : String → String) (b : Block) (nonces : List Nat) : Option Block :=
  (mineSearch H (blockDataOf b) nonces).map
    (fun p => { b with nonce := p.1, hash := p.2 })

/-- Ledger state, mirroring the fields of `CBlockweave`
(`src/blockcore/blockweave.h`). The `unordered_map` is an association
list read through `lookupB`; a new binding for an existing key shadows
the old one, modelling `operator[]` overwrite. -/
structure WeaveState where
  map_blocks : List (String × Block)
  block_hashes : List String
  genesis : Block
  current : Block
  mempool : List Tx
  mining_enabled : Bool
  stop_mining : Bool
  deriving DecidableEq, Repr, Inhabited

/-- Lookup in the modelled `map_blocks` (first binding wins). -/
def lookupB : List (String × Block) → String → Option Block
  | [], _ => none
  | (k, v) :: rest, s => if k = s then some v else lookupB rest s

/-- Method `CBlockweave::AddTransaction`: append to the mempool. -/
def addTransaction (st : WeaveState) (tx : Tx) : WeaveState :=
  { st with mempool := st.mempool ++ [tx] }

/-- Method `CBlockweave::SelectRecallBlock`: heights at most 1 yield the
genesis hash; otherwise the uniform draw over `[0, size-1]` is given as
the oracle `pick`, and the block-hash list is indexed at it. -/
def selectRecallBlock (st : WeaveState) (height : Int) (pick : Nat) : String :=
  if height ≤ 1 then st.genesis.hash
  else st.block_hashes.getD pick zeroHash

/-- Pre-nonce candidate block built inside `CBlockweave::MineBlock`: a
block on the current head at height+1 holding the oldest `min(pool,10)`
pool entries, with the recall reference chosen for the new height. -/
def minedCandidate (st : WeaveState) (miner : String) (ts : Int) (pick : Nat) : Block :=
  setRecallBlock
    ((st.mempool.take (min st.mempool.length 10)).foldl blockAddTx
      (mkBlock st.current.hash (st.current.height + 1) miner ts))
    (selectRecallBlock st (st.current.height + 1) pick)

/-- Remaining steps of `CBlockweave::MineBlock` after a successful
proof-of-work: insert the block, record its hash, advance the head, and
keep the pool suffix past the drained prefix. -/
def commitBlock (st : WeaveState) (b3 : Block) : WeaveState :=
  { st with
    map_blocks := (b3.hash, b3) :: st.map_blocks
    block_hashes := st.block_hashes ++ [b3.hash]
    current := b3
    mempool := st.mempool.drop (min st.mempool.length 10) }

/-- Method `CBlockweave::MineBlock`: no-op on an empty pool; otherwise
build the candidate block, run the proof-of-work and commit. `ts` is the
new block's wall-clock timestamp, `pick` the recall draw, `nonces` the
proof-of-work draws; `none` models the nonce list running out. -/
def mineBlock (H : String → String) (st : WeaveState) (miner : String)
    (ts : Int) (pick : Nat) (nonces : List Nat) : Option WeaveState :=
  if st.mempool = [] then some st
  else
    match blockMine H (minedCandidate st miner ts pick) nonces with
    | none => none
    | some b3 => some (commitBlock st b3)

/-- Constructor `CBlockweave::CBlockweave`: mine a genesis block with a
zero previous hash, empty pool and height 0, insert it and set the head.
`ts`/`nonces` are the genesis block's clock and nonce draws. -/
def construct (H : String → String) (ts : Int) (nonces : List Nat) : Option WeaveState :=
  (blockMine H (mkBlock zeroHash 0 "genesis" ts) nonces).map
    (fun g =>
      { map_blocks := [(g.hash, g)]
        block_hashes := [g.hash]
        genesis := g
        current := g
        mempool := []
        mining_enabled := false
        stop_mining := false })

/-- Method `CBlockweave::StartMining`: enable mining and clear the stop
flag. -/
def startMining (st : WeaveState) : WeaveState :=
  { st with mining_enabled := true, stop_mining := false }

/-- Method `CBlockweave::StopMining`: set the stop flag and disable
mining. -/
def stopMining (st : WeaveState) : WeaveState :=
  { st with stop_mining := true, mining_enabled := false }

/-- Method `CBlockweave::GetMempoolSize`. -/
def getMempoolSize (st : WeaveState) : Nat :=
  st.mempool.length

/-- Loop condition of `MiningThread` (`src/main.cpp`): the loop runs
while `ShouldStopMining()` is false, so it terminates exactly when the
stop flag becomes true. -/
def miningLoopContinues (st : WeaveState) : Bool :=
  !st.stop_mining

/-! ## Basic lemmas about block construction -/

/-- Folding `CBlock::AddTransaction` over a list appends the list to the
block's transactions and accumulates the payload sizes; no other field
changes. -/
theorem foldl_blockAddTx (l : List Tx) (b : Block) :
    l.foldl blockAddTx b =
      { b with txs := b.txs ++ l,
               cumulative_data_size :=
                 b.cumulative_data_size + (l.map (fun tx => tx.data_size)).sum } := by
  induction l generalizing b with
  | nil => simp
  | cons t ts ih =>
    simp only [List.foldl_cons, ih, blockAddTx, List.map_cons, List.sum_cons]
    congr 1
    · simp
    · omega

/-- Search helper: a successful `mineSearch` returns the digest of the
data extended by the accepted nonce, the digest passes the acceptance
test, and every earlier draw was rejected. -/
theorem mineSearch_spec (H : String → String) (data : String) (ns : List Nat)
    (nonce hsh : String) (hm : mineSearch H data ns = some (nonce, hsh)) :
    hsh = H (data ++ nonce) ∧ acceptHash hsh = true ∧
      ∃ pre n post, ns = pre ++ n :: post ∧ nonce = Nat.repr n ∧
        (∀ m ∈ pre, acceptHash (H (data ++ Nat.repr m)) = false) := by
  induction ns with
  | nil => simp [mineSearch] at hm
  | cons m ms ih =>
    simp only [mineSearch] at hm
    by_cases hacc : acceptHash (H (data ++ Nat.repr m)) = true
    · simp only [hacc, if_true, Option.some.injEq, Prod.mk.injEq] at hm
      refine ⟨by rw [← hm.1, ← hm.2], by rw [← hm.2]; exact hacc, [], m, ms, rfl, hm.1.symm, by simp⟩
    · simp only [hacc, if_false] at hm
      obtain ⟨h1, h2, pre, n, post, hsplit, hnonce, hrej⟩ := ih hm
      refine ⟨h1, h2, m :: pre, n, post, by simp [hsplit], hnonce, ?_⟩
      intro x hx
      rcases List.mem_cons.mp hx with hx | hx
      · subst hx
        simpa using hacc
      · exact hrej x hx

/-! ## Claim C3: proof-of-work acceptance -/

/-- C3. `CBlock::Mine` terminates only by accepting a digest of the
concatenation of previous-hash, recall-hash, height, timestamp, every
included transaction id, and a numeric nonce draw, whose first 4 hex
characters compare lexicographically (as strings) below the literal
"0fff"; the accepted digest is the first of the draw sequence to pass
that comparison, and it becomes the block hash. -/
theorem claim3_pow_first_accepted_digest (H : String → String) (b b' : Block)
    (ns : List Nat) (hm : blockMine H b ns = some b') :
    b'.hash = H (b.prev ++ b.recall_hash ++ toString b.height ++ toString b.timestamp ++
        String.join (b.txs.map (fun tx => tx.id)) ++ b'.nonce) ∧
    acceptHash b'.hash = true ∧
    ∃ pre n post, ns = pre ++ n :: post ∧ b'.nonce = Nat.repr n ∧
      (∀ m ∈ pre,
        acceptHash (H (b.prev ++ b.recall_hash ++ toString b.height ++
          toString b.timestamp ++ String.join (b.txs.map (fun tx => tx.id)) ++
          Nat.repr m)) = false) := by
  unfold blockMine at hm
  cases hms : mineSearch H (blockDataOf b) ns with
  | none => rw [hms] at hm; simp at hm
  | some p =>
    rw [hms] at hm
    simp only [Option.map_some', Option.some.injEq] at hm
    obtain ⟨h1, h2, pre, n, post, hsplit, hnonce, hrej⟩ :=
      mineSearch_spec H (blockDataOf b) ns p.1 p.2 (by rw [hms])
    subst hm
    refine ⟨?_, h2, pre, n, post, hsplit, hnonce, ?_⟩
    · simpa [blockDataOf] using h1
    · intro m hmem
      simpa [blockDataOf] using hrej m hmem

/-- Digest stand-in used by the concrete witnesses: prefixing with
"0000" makes every digest pass the acceptance test, and the function is
injective, matching the collision-freedom expected of SHA-256. -/
def H0 : String → String := fun s => "0000" ++ s

/-- Genesis state used by the witnesses: ledger constructed with clock 0
and nonce draw 7. -/
def st0 : WeaveState := (construct H0 0 [7]).getD default

theorem claim3_pow_witness :
    ((blockMine H0 (mkBlock zeroHash 0 "genesis" 0) [7]).getD default).hash =
      H0 ((mkBlock zeroHash 0 "genesis" 0).prev ++
        (mkBlock zeroHash 0 "genesis" 0).recall_hash ++
        toString (mkBlock zeroHash 0 "genesis" 0).height ++
        toString (mkBlock zeroHash 0 "genesis" 0).timestamp ++
        String.join (((mkBlock zeroHash 0 "genesis" 0).txs.map (fun tx => tx.id))) ++
        ((blockMine H0 (mkBlock zeroHash 0 "genesis" 0) [7]).getD default).nonce) ∧
    acceptHash ((blockMine H0 (mkBlock zeroHash 0 "genesis" 0) [7]).getD default).hash = true ∧
    ∃ pre n post, [7] = pre ++ n :: post ∧
      ((blockMine H0 (mkBlock zeroHash 0 "genesis" 0) [7]).getD default).nonce = Nat.repr n ∧
      (∀ m ∈ pre,
        acceptHash (H0 ((mkBlock zeroHash 0 "genesis" 0).prev ++
          (mkBlock zeroHash 0 "genesis" 0).recall_hash ++
          toString (mkBlock zeroHash 0 "genesis" 0).height ++
          toString (mkBlock zeroHash 0 "genesis" 0).timestamp ++
          String.join (((mkBlock zeroHash 0 "genesis" 0).txs.map (fun tx => tx.id))) ++
          Nat.repr m)) = false) :=
  claim3_pow_first_accepted_digest H0 (mkBlock zeroHash 0 "genesis" 0)
    ((blockMine H0 (mkBlock zeroHash 0 "genesis" 0) [7]).getD default) [7] (by decide)

/-! ## Claim C1: FIFO drain capped at 10 -/

/-- C1. A successful `CBlockweave::MineBlock` on a non-empty pool mines
a block whose transactions are exactly the oldest `min(pool,10)` pool
entries in FIFO order (hence at most 10), and the pool afterwards is the
corresponding suffix, so its size drops by exactly the included count. -/
theorem claim1_mine_fifo_cap (H : String → String) (st st' : WeaveState)
    (miner : String) (ts : Int) (pick : Nat) (nonces : List Nat)
    (hne : st.mempool ≠ [])
    (h : mineBlock H st miner ts pick nonces = some st') :
    st'.current.txs = st.mempool.take (min st.mempool.length 10) ∧
    st'.current.txs.length ≤ 10 ∧
    st'.mempool = st.mempool.drop (min st.mempool.length 10) ∧
    st'.mempool.length = st.mempool.length - st'.current.txs.length := by
  unfold mineBlock at h
  rw [if_neg hne] at h
  cases hbm : blockMine H (minedCandidate st miner ts pick) nonces with
  | none => rw [hbm] at h; simp at h
  | some b3 =>
    rw [hbm] at h
    simp only [Option.some.injEq] at h
    have hb3 : b3.txs = st.mempool.take (min st.mempool.length 10) := by
      unfold blockMine at hbm
      cases hms : mineSearch H (blockDataOf (minedCandidate st miner ts pick)) nonces with
      | none => rw [hms] at hbm; simp at hbm
      | some p =>
        rw [hms] at hbm
        simp only [Option.map_some', Option.some.injEq] at hbm
        rw [← hbm]
        simp [minedCandidate, setRecallBlock, foldl_blockAddTx, mkBlock]
    have hcur : st'.current = b3 := by rw [← h]; rfl
    have hpool : st'.mempool = st.mempool.drop (min st.mempool.length 10) := by
      rw [← h]; rfl
    have htake : (st.mempool.take (min st.mempool.length 10)).length =
        min st.mempool.length 10 := by
      rw [List.length_take]
      omega
    refine ⟨by rw [hcur, hb3], ?_, hpool, ?_⟩
    · rw [hcur, hb3, htake]
      omega
    · rw [hcur, hb3, htake, hpool, List.length_drop]

/-- Pool state used by the C1 witness: genesis ledger with one pending
transaction. -/
def stPool1 : WeaveState :=
  addTransaction st0 (mkTransaction H0 "A" "B" [104, 105] 10000 3)

theorem claim1_mine_fifo_cap_witness :
    stPool1.mempool ≠ [] ∧
    ((mineBlock H0 stPool1 "miner" 9 0 [4]).getD default).current.txs =
      stPool1.mempool.take (min stPool1.mempool.length 10) ∧
    ((mineBlock H0 stPool1 "miner" 9 0 [4]).getD default).current.txs.length ≤ 10 ∧
    ((mineBlock H0 stPool1 "miner" 9 0 [4]).getD default).mempool =
      stPool1.mempool.drop (min stPool1.mempool.length 10) ∧
    ((mineBlock H0 stPool1 "miner" 9 0 [4]).getD default).mempool.length =
      stPool1.mempool.length -
        ((mineBlock H0 stPool1 "miner" 9 0 [4]).getD default).current.txs.length :=
  ⟨by decide,
    claim1_mine_fifo_cap H0 stPool1 ((mineBlock H0 stPool1 "miner" 9 0 [4]).getD default)
      "miner" 9 0 [4] (by decide) (by decide)⟩

/-! ## Claim C6: recall-block selection -/

/-- C6. `SelectRecallBlock` returns the genesis hash for heights at most
1; for heights at least 2 it returns the block hash at the drawn index,
which is a member of the ledger's known block-hash list whenever the
draw is in range (the C++ draw is uniform over exactly the indices
`0 .. size-1`). -/
theorem claim6_select_recall (st : WeaveState) (h : Int) (pick : Nat) :
    (h ≤ 1 → selectRecallBlock st h pick = st.genesis.hash) ∧
    (2 ≤ h → pick < st.block_hashes.length →
      selectRecallBlock st h pick ∈ st.block_hashes) := by
  constructor
  · intro hle
    simp [selectRecallBlock, hle]
  · intro hge hlt
    have hnle : ¬ h ≤ 1 := by omega
    simp only [selectRecallBlock, hnle, if_false]
    rw [List.getD_eq_getElem st.block_hashes zeroHash hlt]
    exact List.getElem_mem hlt

theorem claim6_select_recall_witness :
    (selectRecallBlock st0 0 0 = st0.genesis.hash) ∧
    (selectRecallBlock st0 2 0 ∈ st0.block_hashes) :=
  ⟨(claim6_select_recall st0 0 0).1 (by decide),
   (claim6_select_recall st0 2 0).2 (by decide) (by decide)⟩

/-! ## Claim C2: ledger invariants under reachable states -/

/-- Membership of a transaction in some block recorded in the ledger
map. Transaction identity is C++ object identity (`shared_ptr`
targets); the embedding compares the full record. -/
def txInBlocks (st : WeaveState) (tx : Tx) : Prop :=
  ∃ kv ∈ st.map_blocks, tx ∈ kv.2.txs

/-- One ledger operation, as invoked by the daemon. The side conditions
record two facts about the real runtime that the embedding makes
explicit: a submitted `CTransaction` is a freshly allocated object
(`make_shared` in the handlers), hence distinct from every live pool or
block entry; and the external SHA-256 digest of a newly mined block does
not collide with any recorded block key. -/
inductive Step (H : String → String) : WeaveState → WeaveState → Prop
  | add (st : WeaveState) (tx : Tx)
      (hfresh_pool : tx ∉ st.mempool) (hfresh_blocks : ¬ txInBlocks st tx) :
      Step H st (addTransaction st tx)
  | mine (st st' : WeaveState) (miner : String) (ts : Int) (pick : Nat)
      (nonces : List Nat)
      (h : mineBlock H st miner ts pick nonces = some st')
      (hfresh : st.mempool ≠ [] → lookupB st.map_blocks st'.current.hash = none) :
      Step H st st'

/-- Reflexive-transitive closure of ledger operations. -/
def Reachable (H : String → String) (st0 st : WeaveState) : Prop :=
  Relation.ReflTransGen (Step H) st0 st

/-- Invariant claimed by the specification for every reachable ledger
state. -/
def LedgerInv (st : WeaveState) : Prop :=
  lookupB st.map_blocks st.genesis.hash = some st.genesis ∧
  lookupB st.map_blocks st.current.hash = some st.current ∧
  ∀ tx ∈ st.mempool, ¬ txInBlocks st tx

/-- Strengthened induction invariant: the claimed one plus pool
distinctness (a consequence of fresh allocation). -/
def LedgerInvAux (st : WeaveState) : Prop :=
  LedgerInv st ∧ st.mempool.Nodup

theorem invAux_init (H : String → String) (ts : Int) (nonces : List Nat)
    (st0 : WeaveState) (h : construct H ts nonces = some st0) : LedgerInvAux st0 := by
  unfold construct at h
  cases hbm : blockMine H (mkBlock zeroHash 0 "genesis" ts) nonces with
  | none => rw [hbm] at h; simp at h
  | some g =>
    rw [hbm] at h
    simp only [Option.map_some', Option.some.injEq] at h
    subst h
    refine ⟨⟨?_, ?_, ?_⟩, ?_⟩ <;> simp [lookupB, txInBlocks]

theorem invAux_step (H : String → String) (st st' : WeaveState)
    (hstep : Step H st st') (hinv : LedgerInvAux st) : LedgerInvAux st' := by
  obtain ⟨⟨hg, hc, hdisj⟩, hnodup⟩ := hinv
  cases hstep with
  | add tx hfresh_pool hfresh_blocks =>
    refine ⟨⟨hg, hc, ?_⟩, ?_⟩
    · intro t ht
      rcases List.mem_append.mp ht with ht | ht
      · exact hdisj t ht
      · have : t = tx := by simpa using ht
        subst this
        exact hfresh_blocks
    · simp [addTransaction, List.nodup_append, hnodup, hfresh_pool]
  | mine st' miner ts pick nonces h hfresh =>
    by_cases hne : st.mempool = []
    · unfold mineBlock at h
      rw [if_pos hne] at h
      simp only [Option.some.injEq] at h
      subst h
      exact ⟨⟨hg, hc, hdisj⟩, hnodup⟩
    · unfold mineBlock at h
      rw [if_neg hne] at h
      cases hbm : blockMine H (minedCandidate st miner ts pick) nonces with
      | none => rw [hbm] at h; simp at h
      | some b3 =>
        rw [hbm] at h
        simp only [Option.some.injEq] at h
        have hlook : lookupB st.map_blocks b3.hash = none := by
          have := hfresh hne
          rw [← h] at this
          exact this
        have hb3txs : b3.txs = st.mempool.take (min st.mempool.length 10) := by
          unfold blockMine at hbm
          cases hms : mineSearch H (blockDataOf (minedCandidate st miner ts pick)) nonces with
          | none => rw [hms] at hbm; simp at hbm
          | some p =>
            rw [hms] at hbm
            simp only [Option.map_some', Option.some.injEq] at hbm
            rw [← hbm]
            simp [minedCandidate, setRecallBlock, foldl_blockAddTx, mkBlock]
        have hgen_ne : b3.hash ≠ st.genesis.hash := by
          intro hcontra
          rw [hcontra, hg] at hlook
          exact Option.some_ne_none _ hlook
        subst h
        refine ⟨⟨?_, ?_, ?_⟩, ?_⟩
        · simpa [commitBlock, lookupB, hgen_ne] using hg
        · simp [commitBlock, lookupB]
        · intro t ht
          simp only [commitBlock] at ht
          intro hcontra
          obtain ⟨kv, hkv, htkv⟩ := hcontra
          simp only [commitBlock, List.mem_cons] at hkv
          rcases hkv with hkv | hkv
          · subst hkv
            simp only at htkv
            rw [hb3txs] at htkv
            have hdisj_td :=
              List.disjoint_take_drop (m := min st.mempool.length 10)
                (n := min st.mempool.length 10) hnodup (le_refl _)
            exact hdisj_td htkv ht
          · have htpool : t ∈ st.mempool := List.drop_subset _ _ ht
            exact hdisj t htpool ⟨kv, hkv, htkv⟩
        · simp only [commitBlock]
          exact hnodup.sublist (List.drop_sublist _ _)

/-- C2. Every ledger state reachable from construction by any sequence
of `AddTransaction` and `MineBlock` operations keeps the genesis entry
in the block map, keeps the head pointer on a mapped block, and never
holds a transaction in the pool and in a mined block at once. -/
theorem claim2_reachable_invariant (H : String → String) (ts : Int)
    (nonces : List Nat) (st0 st : WeaveState)
    (h0 : construct H ts nonces = some st0)
    (hr : Reachable H st0 st) : LedgerInv st := by
  have : LedgerInvAux st := by
    induction hr with
    | refl => exact invAux_init H ts nonces st0 h0
    | tail _ hstep ih => exact invAux_step H _ _ hstep ih
  exact this.1

theorem claim2_reachable_invariant_witness :
    lookupB st0.map_blocks st0.genesis.hash = some st0.genesis ∧
    lookupB st0.map_blocks st0.current.hash = some st0.current ∧
    ∀ tx ∈ st0.mempool, ¬ txInBlocks st0 tx :=
  claim2_reachable_invariant H0 0 [7] st0 st0 (by decide) Relation.ReflTransGen.refl

/-! ## Claim C9: conservation of payload bytes -/

/-- Sum of `cumulative_data_size` over every non-genesis (height ≠ 0)
block recorded in the ledger map. -/
def nonGenesisDataSum (st : WeaveState) : Nat :=
  ((st.map_blocks.filter (fun kv => kv.2.height != 0)).map
    (fun kv => kv.2.cumulative_data_size)).sum

/-- Sum of the payload sizes of the pending pool. -/
def poolDataSum (st : WeaveState) : Nat :=
  (st.mempool.map (fun tx => tx.data_size)).sum

/-- One client submission to `POST /transaction`/`AddTransaction`: the
constructor arguments of the freshly allocated `CTransaction`. -/
structure Submission where
  owner : String
  target : String
  data : List Nat
  reward : Nat
  ts : Int
  deriving DecidableEq, Repr, Inhabited

/-- Transaction built from a submission (`CTransaction` constructor). -/
def subTx (H : String → String) (s : Submission) : Tx :=
  mkTransaction H s.owner s.target s.data s.reward s.ts

/-- Repeatedly calling `MineBlock` until the pool is empty: `done` stops
at an empty pool, `step` performs one successful `MineBlock` call on a
non-empty pool. As in `Step.mine`, the digest-freshness side condition
models SHA-256 collision-freedom. -/
inductive MineRun (H : String → String) (miner : String) :
    WeaveState → WeaveState → Prop
  | done (st : WeaveState) (h : st.mempool = []) : MineRun H miner st st
  | step (st st' st'' : WeaveState) (ts : Int) (pick : Nat) (nonces : List Nat)
      (hne : st.mempool ≠ [])
      (h : mineBlock H st miner ts pick nonces = some st')
      (hfresh : lookupB st.map_blocks st'.current.hash = none)
      (hrest : MineRun H miner st' st'') : MineRun H miner st st''

theorem foldl_addTransaction (st : WeaveState) (txs : List Tx) :
    txs.foldl addTransaction st = { st with mempool := st.mempool ++ txs } := by
  induction txs generalizing st with
  | nil => simp
  | cons t ts ih =>
    simp only [List.foldl_cons, ih, addTransaction]
    congr 1
    simp

/-- One successful non-trivial `MineBlock` call moves the drained
payload bytes from the pool sum into the non-genesis block sum, keeps
the head's height nonnegative, and the total is conserved. -/
theorem mineBlock_sum_conserved (H : String → String) (st st' : WeaveState)
    (miner : String) (ts : Int) (pick : Nat) (nonces : List Nat)
    (hne : st.mempool ≠ [])
    (h : mineBlock H st miner ts pick nonces = some st')
    (hh : 0 ≤ st.current.height) :
    nonGenesisDataSum st' + poolDataSum st' =
      nonGenesisDataSum st + poolDataSum st ∧ 0 ≤ st'.current.height := by
  unfold mineBlock at h
  rw [if_neg hne] at h
  cases hbm : blockMine H (minedCandidate st miner ts pick) nonces with
  | none => rw [hbm] at h; simp at h
  | some b3 =>
    rw [hbm] at h
    simp only [Option.some.injEq] at h
    have hb3 : b3.txs = st.mempool.take (min st.mempool.length 10) ∧
        b3.cumulative_data_size =
          ((st.mempool.take (min st.mempool.length 10)).map
            (fun tx => tx.data_size)).sum ∧
        b3.height = st.current.height + 1 := by
      unfold blockMine at hbm
      cases hms : mineSearch H (blockDataOf (minedCandidate st miner ts pick)) nonces with
      | none => rw [hms] at hbm; simp at hbm
      | some p =>
        rw [hms] at hbm
        simp only [Option.map_some', Option.some.injEq] at hbm
        rw [← hbm]
        simp [minedCandidate, setRecallBlock, foldl_blockAddTx, mkBlock]
    have hht : b3.height ≠ 0 := by omega
    subst h
    constructor
    · have hsum : nonGenesisDataSum (commitBlock st b3) =
          b3.cumulative_data_size + nonGenesisDataSum st := by
        simp [nonGenesisDataSum, commitBlock, List.filter_cons, hht]
      have hpool : poolDataSum (commitBlock st b3) =
          ((st.mempool.drop (min st.mempool.length 10)).map
            (fun tx => tx.data_size)).sum := by
        simp [poolDataSum, commitBlock]
      rw [hsum, hpool, hb3.2.1]
      have hsplit : ((st.mempool.take (min st.mempool.length 10)).map
            (fun tx => tx.data_size)).sum +
          ((st.mempool.drop (min st.mempool.length 10)).map
            (fun tx => tx.data_size)).sum =
          (st.mempool.map (fun tx => tx.data_size)).sum := by
        rw [← List.sum_append, ← List.map_append, List.take_append_drop]
      unfold poolDataSum
      omega
    · simp only [commitBlock]
      omega

theorem mineRun_sum (H : String → String) (miner : String)
    (st st' : WeaveState) (hrun : MineRun H miner st st')
    (hh : 0 ≤ st.current.height) :
    nonGenesisDataSum st' = nonGenesisDataSum st + poolDataSum st ∧
      st'.mempool = [] := by
  induction hrun with
  | done st hempty =>
    constructor
    · have : poolDataSum st = 0 := by simp [poolDataSum, hempty]
      omega
    · exact hempty
  | step st stm st'' ts pick nonces hne h hfresh hrest ih =>
    obtain ⟨hcons, hpos⟩ := mineBlock_sum_conserved H st stm miner ts pick nonces hne h hh
    obtain ⟨hsum, hempty⟩ := ih hpos
    refine ⟨?_, hempty⟩
    omega

/-- C9. Starting from a fresh ledger, submitting any list of
transactions and then mining until the pool empties leaves the sum of
`cumulative_data_size` over all non-genesis blocks equal to the sum of
the submitted payload sizes. -/
theorem claim9_data_size_conserved (H : String → String) (ts : Int)
    (nonces : List Nat) (miner : String) (st0 st' : WeaveState)
    (subs : List Submission)
    (h0 : construct H ts nonces = some st0)
    (hrun : MineRun H miner ((subs.map (subTx H)).foldl addTransaction st0) st') :
    nonGenesisDataSum st' = (subs.map (fun s => s.data.length)).sum := by
  unfold construct at h0
  cases hbm : blockMine H (mkBlock zeroHash 0 "genesis" ts) nonces with
  | none => rw [hbm] at h0; simp at h0
  | some g =>
    rw [hbm] at h0
    simp only [Option.map_some', Option.some.injEq] at h0
    have hg0 : g.height = 0 ∧ g.cumulative_data_size = 0 := by
      unfold blockMine at hbm
      cases hms : mineSearch H (blockDataOf (mkBlock zeroHash 0 "genesis" ts)) nonces with
      | none => rw [hms] at hbm; simp at hbm
      | some p =>
        rw [hms] at hbm
        simp only [Option.map_some', Option.some.injEq] at hbm
        rw [← hbm]
        simp [mkBlock]
    have hfold := foldl_addTransaction st0 (subs.map (subTx H))
    rw [hfold] at hrun
    have hcur : (0 : Int) ≤ ({ st0 with mempool := st0.mempool ++ subs.map (subTx H) } : WeaveState).current.height := by
      subst h0
      simp [hg0.1]
    obtain ⟨hsum, _⟩ := mineRun_sum H miner _ _ hrun hcur
    rw [hsum]
    have hng : nonGenesisDataSum { st0 with mempool := st0.mempool ++ subs.map (subTx H) } = 0 := by
      subst h0
      simp [nonGenesisDataSum, List.filter_cons, hg0.1]
    have hpool : poolDataSum { st0 with mempool := st0.mempool ++ subs.map (subTx H) } =
        (subs.map (fun s => s.data.length)).sum := by
      subst h0
      simp only [poolDataSum, List.nil_append, List.map_map]
      rfl
    rw [hng, hpool]
    omega

/-- Concrete submission list used by the C9 witness. -/
def subs1 : List Submission := [⟨"A", "B", [104, 105], 10000, 3⟩]

/-- Pool state of the C9 witness after the submissions. -/
def stSub1 : WeaveState := (subs1.map (subTx H0)).foldl addTransaction st0

/-- Final state of the C9 witness after mining until empty. -/
def stMined1 : WeaveState := (mineBlock H0 stSub1 "miner" 9 0 [4]).getD default

theorem claim9_data_size_conserved_witness :
    nonGenesisDataSum stMined1 = (subs1.map (fun s => s.data.length)).sum :=
  claim9_data_size_conserved H0 0 [7] "miner" st0 stMined1 subs1 (by decide)
    (MineRun.step stSub1 stMined1 stMined1 9 0 [4] (by decide) (by decide) (by decide)
      (MineRun.done stMined1 (by decide)))

/-! ## Claim C7: request queue drain-then-fail -/

/-- Parsed HTTP request, mirroring `CHttpRequest` (`src/rest/rest_api.h`).
The client socket handle is carried but never interpreted. -/
structure HttpRequest where
  method : String
  path : String
  body : String
  content_type : String
  client_socket : Int
  deriving DecidableEq, Repr, Inhabited

/-- State of `CRequestQueue`: the FIFO contents and the shutdown flag. -/
structure QState where
  queue : List HttpRequest
  shutdown : Bool
  deriving DecidableEq, Repr, Inhabited

/-- Method `CRequestQueue::Enqueue`: push at the back. -/
def enqueue (st : QState) (r : HttpRequest) : QState :=
  { st with queue := st.queue ++ [r] }

/-- Method `CRequestQueue::Dequeue`, evaluated at the moment the
condition wait resolves. With an empty queue the wait either times out
(`f_shutdown` false; predicate still false) or is satisfied by the
shutdown flag, and both paths return failure without touching the
queue; with a non-empty queue the front item is popped regardless of
the flag. Wall-clock timing itself is outside the model. -/
def dequeue (st : QState) : Option HttpRequest × QState :=
  match st.queue with
  | [] => (none, st)
  | r :: rest => (some r, { st with queue := rest })

/-- Method `CRequestQueue::Shutdown`: set the flag (the queue contents
are untouched). -/
def shutdownQ (st : QState) : QState :=
  { st with shutdown := true }

/-- Repeated `Dequeue` until the first failure, with fuel. -/
def drainAux : Nat → QState → List HttpRequest × QState
  | 0, st => ([], st)
  | Nat.succ n, st =>
    match dequeue st with
    | (none, st') => ([], st')
    | (some r, st') =>
      let p := drainAux n st'
      (r :: p.1, p.2)

/-- Repeated `Dequeue` until the first failure. -/
def drain (st : QState) : List HttpRequest × QState :=
  drainAux st.queue.length st

theorem drainAux_spec (n : Nat) (st : QState) (h : st.queue.length ≤ n) :
    drainAux n st = (st.queue, { st with queue := [] }) := by
  induction n generalizing st with
  | zero =>
    have hq : st.queue = [] := List.length_eq_zero.mp (Nat.le_zero.mp h)
    cases st
    simp_all [drainAux]
  | succ n ih =>
    cases hq : st.queue with
    | nil =>
      cases st
      simp_all [drainAux, dequeue]
    | cons r rest =>
      have hlen : rest.length ≤ n := by
        have := h
        rw [hq] at this
        simpa using this
      have := ih { st with queue := rest } (by simpa using hlen)
      simp [drainAux, dequeue, hq, this]

/-- C7. `Dequeue` on an empty queue that is not shut down fails (after
the wait expires) without removing anything; after `Shutdown()`, every
item enqueued before the shutdown is still delivered in FIFO order, and
failure occurs only once the queue is empty. -/
theorem claim7_queue_drain (st : QState) (items : List HttpRequest) :
    (st.queue = [] ∧ st.shutdown = false → dequeue st = (none, st)) ∧
    drain (shutdownQ (items.foldl enqueue ⟨[], false⟩)) = (items, ⟨[], true⟩) ∧
    (dequeue (⟨[], true⟩ : QState)).1 = none := by
  refine ⟨?_, ?_, rfl⟩
  · rintro ⟨h1, _⟩
    simp [dequeue, h1]
  · have hfold : ∀ (l : List HttpRequest) (q : QState),
        l.foldl enqueue q = { q with queue := q.queue ++ l } := by
      intro l
      induction l with
      | nil => intro q; simp
      | cons x xs ih =>
        intro q
        simp only [List.foldl_cons, ih, enqueue]
        congr 1
        simp
    rw [hfold]
    unfold drain
    rw [drainAux_spec _ _ (le_refl _)]
    simp [shutdownQ]

theorem claim7_queue_drain_witness :
    dequeue (⟨[], false⟩ : QState) = (none, (⟨[], false⟩ : QState)) ∧
    drain (shutdownQ ([(⟨"GET", "/chain", "", "", 5⟩ : HttpRequest)].foldl enqueue
      ⟨[], false⟩)) = ([⟨"GET", "/chain", "", "", 5⟩], (⟨[], true⟩ : QState)) ∧
    (dequeue (⟨[], true⟩ : QState)).1 = none :=
  ⟨(claim7_queue_drain ⟨[], false⟩ [⟨"GET", "/chain", "", "", 5⟩]).1 ⟨rfl, rfl⟩,
   (claim7_queue_drain ⟨[], false⟩ [⟨"GET", "/chain", "", "", 5⟩]).2.1,
   (claim7_queue_drain ⟨[], false⟩ [⟨"GET", "/chain", "", "", 5⟩]).2.2⟩

/-! ## REST utility functions (`src/rest/rest_api.cpp`) -/

/-- C `isspace` over the ASCII range. -/
def isCSpace (c : Char) : Bool :=
  c = ' ' || c = '\t' || c = '\n' || c = Char.ofNat 11 || c = Char.ofNat 12 || c = '\r'

/-- Static helper `ExtractJsonValue`: locate the quoted key, the
following colon, skip whitespace, then read either a quoted string
value or a bare value up to a comma, closing brace or newline with
trailing whitespace trimmed. Out-of-range `operator[]` at exactly the
string length yields the NUL character, as in `std::string`. -/
def extractJsonValue (json key : String) : String :=
  let l := json.data
  let search := ('"' :: key.data) ++ ['"']
  match findSub search l with
  | none => ""
  | some kpos =>
    match findSubFrom l kpos [':'] with
    | none => ""
    | some cpos =>
      let vs := cpos + 1 + ((l.drop (cpos + 1)).takeWhile isCSpace).length
      if l.getD vs (Char.ofNat 0) = '"' then
        match findSubFrom l (vs + 1) ['"'] with
        | none => ""
        | some ve => String.mk ((l.drop (vs + 1)).take (ve - (vs + 1)))
      else
        let sv := (l.drop vs).takeWhile
          (fun c => !(c = ',' || c = Char.ofNat 125 || c = '\n'))
        let rtrim := (sv.reverse.dropWhile
          (fun c => c = ' ' || c = '\t' || c = '\r' || c = '\n')).reverse
        if rtrim = [] then String.mk sv else String.mk rtrim

/-- Table `base64_chars`. -/
def b64Chars : List Char :=
  "ABCDEFGHIJKLMNOPQRSTUVWXYZabcdefghijklmnopqrstuvwxyz0123456789+/".data

def b64FindAux : List Char → Char → Nat → Nat
  | [], _, _ => 255
  | d :: ds, c, i => if d = c then i else b64FindAux ds c (i + 1)

/-- Model of `base64_chars.find(c)` followed by the `unsigned char`
narrowing of the result: a hit gives the index (≤ 63), a miss gives
`npos` truncated to 255. -/
def b64Find (c : Char) : Nat := b64FindAux b64Chars c 0

/-- Static helper `IsBase64`. -/
def isB64 (c : Char) : Bool := c.isAlphanum || c = '+' || c = '/'

/-- Bit arithmetic of the decoder on one translated 4-group; each byte
is stored into an `unsigned char`, hence the `% 256`. -/
def b64Group (a b c d : Nat) : List Nat :=
  [((a <<< 2) + ((b &&& 0x30) >>> 4)) % 256,
   (((b &&& 0xf) <<< 4) + ((c &&& 0x3c) >>> 2)) % 256,
   (((c &&& 0x3) <<< 6) + d) % 256]

/-- Tail handling of `DecodeBase64`: the raw char array is padded with
NUL to 4, all four entries are translated (NUL misses the table), and
the first `k-1` output bytes are kept. -/
def b64Tail (tail : List Char) : List Nat :=
  match tail with
  | [] => []
  | l =>
    let g := (l ++ List.replicate (4 - l.length) (Char.ofNat 0)).map b64Find
    (b64Group (g.getD 0 0) (g.getD 1 0) (g.getD 2 0) (g.getD 3 0)).take (l.length - 1)

def b64Chunks : List Char → List Nat
  | c1 :: c2 :: c3 :: c4 :: rest =>
    b64Group (b64Find c1) (b64Find c2) (b64Find c3) (b64Find c4) ++ b64Chunks rest
  | tail => b64Tail tail

/-- Static helper `DecodeBase64`: consume characters until the first
`'='` or non-base64 character, then decode in 4-groups with the partial
tail rule above. -/
def decodeBase64 (s : String) : List Nat :=
  b64Chunks (s.data.takeWhile (fun c => !(c = '=') && isB64 c))

/-! ## IEEE binary64 model for the fee computation

The handler computes `static_cast<uint64_t>(std::stod(str_fee) *
1000000)`. The model is exact integer arithmetic on fractions and
dyadics: each conversion rounds to the nearest binary64 value (53-bit
significand, ties to even). Subnormal and overflowing magnitudes are
outside the fee values this path can produce and are not modelled
specially. -/

/-- Nonnegative dyadic value `m * 2 ^ e`; the rounded doubles of the
fee path. -/
structure Dyadic where
  m : Nat
  e : Int
  deriving DecidableEq, Repr, Inhabited

/-- Test `2 ^ z ≤ n / d` using integer arithmetic only. -/
def le2pow (z : Int) (n d : Nat) : Bool :=
  if 0 ≤ z then d * 2 ^ z.toNat ≤ n else d ≤ n * 2 ^ (-z).toNat

def natLog2Aux : Nat → Nat → Nat
  | 0, _ => 0
  | Nat.succ fuel, n => if n ≤ 1 then 0 else natLog2Aux fuel (n / 2) + 1

/-- Floor of the base-2 logarithm (0 at 0), by fuelled halving. -/
def natLog2 (n : Nat) : Nat := natLog2Aux n n

/-- Round the fraction `n / d` (with `d ≠ 0`) to the nearest binary64
value: find the exponent placing the significand in `[2^52, 2^53)`,
then round the scaled value to an integer, ties to even. -/
def roundDoubleFrac (n d : Nat) : Dyadic :=
  if n = 0 then ⟨0, 0⟩
  else
    let z0 : Int := (natLog2 n : Int) - (natLog2 d : Int)
    let z : Int :=
      if le2pow (z0 + 1) n d then z0 + 1
      else if le2pow z0 n d then z0
      else z0 - 1
    let e : Int := z - 52
    let num := n * 2 ^ (-e).toNat
    let den := d * 2 ^ e.toNat
    let q := num / den
    let r := num % den
    let m :=
      if 2 * r < den then q
      else if den < 2 * r then q + 1
      else if q % 2 = 0 then q else q + 1
    ⟨m, e⟩

/-- Truncation toward zero of a nonnegative dyadic, the
`static_cast<uint64_t>` of the fee path. -/
def dyadicTruncNat (x : Dyadic) : Nat :=
  if 0 ≤ x.e then x.m * 2 ^ x.e.toNat else x.m / 2 ^ (-x.e).toNat

/-- Binary64 product `d * 1000000` (the integer literal converts
exactly): form the exact fraction and round once, as the hardware
multiply does. -/
def mulMillionRound (x : Dyadic) : Dyadic :=
  if 0 ≤ x.e then roundDoubleFrac (x.m * 1000000 * 2 ^ x.e.toNat) 1
  else roundDoubleFrac (x.m * 1000000) (2 ^ (-x.e).toNat)

/-- Numeric value of a digit string. -/
def digitsVal (l : List Char) : Nat :=
  l.foldl (fun a c => a * 10 + (c.toNat - 48)) 0

/-- Member `std::stod` restricted to the plain fixed-point forms the
API uses (optional sign, digits, optional fractional part), followed by
the rounding to binary64 that `stod` performs; `none` models the
`std::invalid_argument` throw when no digits can be consumed. The
result is a sign flag and the rounded magnitude. -/
def stodDecimal (s : String) : Option (Bool × Dyadic) :=
  let l := s.data.dropWhile isCSpace
  let p :=
    match l with
    | '-' :: t => (true, t)
    | '+' :: t => (false, t)
    | _ => (false, l)
  let ip := p.2.takeWhile Char.isDigit
  let rest := p.2.drop ip.length
  match rest with
  | '.' :: t =>
    let fp := t.takeWhile Char.isDigit
    if ip.isEmpty && fp.isEmpty then none
    else some (p.1, roundDoubleFrac (digitsVal ip * 10 ^ fp.length + digitsVal fp)
      (10 ^ fp.length))
  | _ => if ip.isEmpty then none else some (p.1, roundDoubleFrac (digitsVal ip) 1)

/-- Fee computation `static_cast<uint64_t>(stod(s) * 1000000)`. A
negative fee would make the cast undefined behaviour in C++; the model
returns 0 there (no claim exercises it). -/
def feeOf (p : Bool × Dyadic) : Nat :=
  if p.1 then 0 else dyadicTruncNat (mulMillionRound p.2)

/-! ## REST request handlers -/

/-- Environment of the server visible to the handlers: the digest
function, the wall clock, the configured miner address and data
directory, and the filesystem/randomness oracles used by the file
upload path (generated UUID, directory-creation, file-open and
file-write outcomes). -/
structure RestEnv where
  H : String → String
  ts : Int
  miner_address : String
  data_dir : String
  uuid : String
  mkdir_ok : Bool
  open_ok : Bool
  write_ok : Bool

/-- Success response assembled by `HandlePostTransaction`. -/
def txSuccessResp (idStr str_from str_to : String) (dlen nfee : Nat) : String :=
  "\x7b\n  \"status\": \"success\",\n  \"transaction_id\": \"" ++ strTake idStr 32 ++
  "...\",\n  \"from\": \"" ++ strTake str_from 16 ++ "...\",\n  \"to\": \"" ++
  strTake str_to 16 ++ "...\",\n  \"data_size\": " ++ toString dlen ++
  ",\n  \"fee\": " ++ toString nfee ++ "\n\x7d"

/-- Method `CRestApiServer::HandlePostTransaction`: extract the four
fields, validate `from`/`to`/`data`, decode the base64 payload, parse
the optional fee (absent means 0, unparsable means an error), then
build the transaction, append it to the pool and answer with the
success JSON. -/
def handlePostTransaction (H : String → String) (ts : Int) (st : WeaveState)
    (body : String) : String × WeaveState :=
  let str_from := extractJsonValue body "from"
  let str_to := extractJsonValue body "to"
  let str_data_b64 := extractJsonValue body "data"
  let str_fee := extractJsonValue body "fee"
  if str_from = "" || str_to = "" || str_data_b64 = "" then
    ("\x7b\"error\": \"Missing required fields: from, to, data\"\x7d", st)
  else
    let data := decodeBase64 str_data_b64
    if data = [] then
      ("\x7b\"error\": \"Invalid base64 data\"\x7d", st)
    else
      match (if str_fee = "" then some 0 else (stodDecimal str_fee).map feeOf) with
      | none => ("\x7b\"error\": \"Invalid fee value\"\x7d", st)
      | some n_fee =>
        let tx := mkTransaction H str_from str_to data n_fee ts
        (txSuccessResp tx.id str_from str_to data.length n_fee, addTransaction st tx)

/-- Static helper `ParseMultipartFile`: find the opening boundary, the
Content-Disposition header and the optional quoted filename, locate the
blank line, take the bytes up to the next boundary with trailing CR/LF
trimmed, and fail on an empty payload. -/
def parseMultipartFile (body boundary : String) : Option (String × List Nat) :=
  let l := body.data
  let startB := '-' :: '-' :: boundary.data
  match findSub startB l with
  | none => none
  | some s0 =>
    let s1 := s0 + startB.length
    match findSubFrom l s1 "Content-Disposition:".data with
    | none => none
    | some dpos =>
      let filename :=
        match findSubFrom l dpos "filename=\"".data with
        | none => ""
        | some f0 =>
          match findSubFrom l (f0 + 10) ['"'] with
          | none => ""
          | some fe => String.mk ((l.drop (f0 + 10)).take (fe - (f0 + 10)))
      let dsOpt :=
        match findSubFrom l dpos ['\r', '\n', '\r', '\n'] with
        | some d4 => some (d4 + 4)
        | none =>
          match findSubFrom l dpos ['\n', '\n'] with
          | some d2 => some (d2 + 2)
          | none => none
      match dsOpt with
      | none => none
      | some ds =>
        match findSubFrom l ds startB with
        | none => none
        | some de =>
          let seg := (l.drop ds).take (de - ds)
          let seg2 := (seg.reverse.dropWhile (fun c => c = '\n' || c = '\r')).reverse
          let bytes := seg2.map (fun c => c.toNat % 256)
          if bytes = [] then none else some (filename, bytes)

/-- Boundary extraction in `HandlePostFiles`: text after "boundary="
with one leading and one trailing quote stripped. -/
def boundaryOf (content_type : String) : Option String :=
  match findSub "boundary=".data content_type.data with
  | none => none
  | some bp =>
    let raw := content_type.data.drop (bp + 9)
    let r1 := if raw.getD 0 (Char.ofNat 0) = '"' then raw.drop 1 else raw
    let r2 := if r1.getD (r1.length - 1) (Char.ofNat 0) = '"' ∧ r1 ≠ [] then
      r1.take (r1.length - 1) else r1
    some (String.mk r2)

/-- Tail of `HandlePostFiles` after the payload bytes are known: reject
an empty payload, create the data directory, write the bytes under the
generated UUID, then build a zero-fee transaction carrying them and
append it to the pool. The returned list records the file written. -/
def saveUploadedFile (env : RestEnv) (st : WeaveState) (filename : String)
    (file_data : List Nat) : String × WeaveState × List (String × List Nat) :=
  if file_data = [] then
    ("\x7b\"error\": \"Empty file data\"\x7d", st, [])
  else if !env.mkdir_ok then
    ("\x7b\"error\": \"Failed to create data directory\"\x7d", st, [])
  else if !env.open_ok then
    ("\x7b\"error\": \"Failed to save file\"\x7d", st, [])
  else
    let path := env.data_dir ++ "/" ++ env.uuid
    if !env.write_ok then
      ("\x7b\"error\": \"Failed to write file\"\x7d", st, [(path, file_data)])
    else
      let tx := mkTransaction env.H env.miner_address "file_storage" file_data 0 env.ts
      ("\x7b\n  \"status\": \"success\",\n  \"transaction_id\": \"" ++
        strTake tx.id 32 ++ "\",\n  \"uuid\": \"" ++ env.uuid ++
        "\",\n  \"original_filename\": \"" ++ filename ++
        "\",\n  \"saved_path\": \"" ++ path ++ "\",\n  \"size\": " ++
        toString file_data.length ++
        ",\n  \"message\": \"File uploaded and saved to disk\"\n\x7d",
       addTransaction st tx, [(path, file_data)])

/-- Method `CRestApiServer::HandlePostFiles`: multipart bodies are
parsed against the boundary from the Content-Type header; any other
body is taken verbatim as the file bytes. -/
def handlePostFiles (env : RestEnv) (st : WeaveState) (req : HttpRequest) :
    String × WeaveState × List (String × List Nat) :=
  if strContains req.content_type "multipart/form-data" then
    match boundaryOf req.content_type with
    | none => ("\x7b\"error\": \"Missing boundary in Content-Type\"\x7d", st, [])
    | some b =>
      match parseMultipartFile req.body b with
      | none => ("\x7b\"error\": \"Failed to parse multipart data\"\x7d", st, [])
      | some (fn, file_data) =>
        saveUploadedFile env st (if fn = "" then "uploaded_file" else fn) file_data
  else
    saveUploadedFile env st "raw_upload" (req.body.data.map (fun c => c.toNat % 256))

/-- Method `CRestApiServer::HandleGetChain`. -/
def handleGetChain (st : WeaveState) : String :=
  "\x7b\n  \"mempool_size\": " ++ toString (getMempoolSize st) ++
  ",\n  \"mining_enabled\": " ++ (if st.mining_enabled then "true" else "false") ++
  "\n\x7d"

/-- Method `CRestApiServer::HandleGET`: route on the path. -/
def handleGET (st : WeaveState) (endpoint : String) : String :=
  if endpoint = "/chain" then handleGetChain st
  else if listIsPref "/block/".data endpoint.data then
    "\x7b\"error\": \"Not implemented\"\x7d"
  else if listIsPref "/data/".data endpoint.data then
    "\x7b\"error\": \"Not implemented\"\x7d"
  else "\x7b\"error\": \"Not found\"\x7d"

/-- Method `CRestApiServer::HandlePOST`: route on the path; the mine
start/stop endpoints flip the ledger flags via
`StartMining`/`StopMining`. -/
def handlePOST (env : RestEnv) (st : WeaveState) (req : HttpRequest) :
    String × WeaveState × List (String × List Nat) :=
  if req.path = "/transaction" then
    let p := handlePostTransaction env.H env.ts st req.body
    (p.1, p.2, [])
  else if req.path = "/files" then handlePostFiles env st req
  else if req.path = "/mine/start" then
    ("\x7b\"status\": \"Mining started\"\x7d", startMining st, [])
  else if req.path = "/mine/stop" then
    ("\x7b\"status\": \"Mining stopped\"\x7d", stopMining st, [])
  else ("\x7b\"error\": \"Not found\"\x7d", st, [])

/-- Outcome of one request: HTTP status code, JSON body, ledger state
after the call, and the files written to disk. -/
structure ReqResult where
  status : Nat
  body : String
  state : WeaveState
  files : List (String × List Nat)
  deriving Repr

/-- Method `CRestApiServer::ProcessRequest`: dispatch on the method;
the status code is 404 exactly when the response body contains both the
substrings `"error"` (quoted) and `Not found`, 405 for unsupported
methods, and 200 otherwise. -/
def processRequest (env : RestEnv) (st : WeaveState) (req : HttpRequest) : ReqResult :=
  if req.method = "GET" then
    let r := handleGET st req.path
    ⟨if strContains r "\"error\"" && strContains r "Not found" then 404 else 200,
     r, st, []⟩
  else if req.method = "POST" then
    let p := handlePOST env st req
    ⟨if strContains p.1 "\"error\"" && strContains p.1 "Not found" then 404 else 200,
     p.1, p.2.1, p.2.2⟩
  else ⟨405, "\x7b\"error\": \"Method not allowed\"\x7d", st, []⟩

/-! ## Claim C5: the stop flag under the mine start/stop endpoints -/

/-- Environment used by the concrete REST witnesses. -/
def envW : RestEnv := ⟨H0, 0, "miner", "/data", "uuid-1", true, true, true⟩

/-- C5 evaluation. The claim says `f_stop_mining` is set only by the
shutdown path and never cleared; the code contradicts it: the
`POST /mine/stop` handler calls `StopMining`, which sets
`f_stop_mining`, and a later `POST /mine/start` calls `StartMining`,
which clears it again. The mining loop's condition is exactly the
negation of the flag, so the loop exits permanently after the first
`POST /mine/stop` even though no shutdown happened. -/
theorem claim5_stop_flag_api_toggled (env : RestEnv) (st : WeaveState) :
    (processRequest env st ⟨"POST", "/mine/stop", "", "", 1⟩).state.stop_mining = true ∧
    (processRequest env
      (processRequest env st ⟨"POST", "/mine/stop", "", "", 1⟩).state
      ⟨"POST", "/mine/start", "", "", 2⟩).state.stop_mining = false ∧
    miningLoopContinues
      (processRequest env st ⟨"POST", "/mine/stop", "", "", 1⟩).state = false ∧
    (∀ st' : WeaveState, miningLoopContinues st' = !st'.stop_mining) :=
  ⟨rfl, rfl, rfl, fun _ => rfl⟩

/-! ## Claim C4: malformed input handling -/

/-- Malformed `POST /transaction` body in the sense of the error table:
a missing required field or undecodable base64 payload. -/
def MalformedTxBody (body : String) : Prop :=
  extractJsonValue body "from" = "" ∨ extractJsonValue body "to" = "" ∨
  extractJsonValue body "data" = "" ∨
  decodeBase64 (extractJsonValue body "data") = []

/-- Malformed `POST /files` multipart request: multipart Content-Type
whose boundary is missing or whose body fails the multipart parse. -/
def MalformedFilesReq (req : HttpRequest) : Prop :=
  strContains req.content_type "multipart/form-data" = true ∧
  (boundaryOf req.content_type = none ∨
    (∃ b, boundaryOf req.content_type = some b ∧
      parseMultipartFile req.body b = none))

/-- C4 counterexample to the claimed 4xx status: the concrete malformed
body missing the `from` field is answered with an `"error"` JSON body
but HTTP status 200, because `ProcessRequest` derives 404 only from
responses containing `Not found`. -/
theorem claim4_counterexample_status_200 :
    extractJsonValue "\x7b\"to\": \"B\"\x7d" "from" = "" ∧
    (processRequest envW st0
      ⟨"POST", "/transaction", "\x7b\"to\": \"B\"\x7d", "application/json", 4⟩).status = 200 ∧
    strContains (processRequest envW st0
      ⟨"POST", "/transaction", "\x7b\"to\": \"B\"\x7d", "application/json", 4⟩).body
      "\"error\"" = true ∧
    ¬(400 ≤ (processRequest envW st0
      ⟨"POST", "/transaction", "\x7b\"to\": \"B\"\x7d", "application/json", 4⟩).status ∧
      (processRequest envW st0
        ⟨"POST", "/transaction", "\x7b\"to\": \"B\"\x7d", "application/json", 4⟩).status ≤ 499) := by
  refine ⟨by decide, by decide, by decide, by decide⟩

/-- C4 as amended: for every malformed `POST /transaction` or multipart
`POST /files` request, the server answers with a JSON body containing
an `"error"` key and HTTP status 200 (not 4xx), leaves the ledger state
untouched and writes no file, and the handler returns normally so the
worker loop keeps serving. -/
theorem claim4_amended_error_recovery (env : RestEnv) (st : WeaveState)
    (req : HttpRequest)
    (hm : (req.method = "POST" ∧ req.path = "/transaction" ∧ MalformedTxBody req.body) ∨
          (req.method = "POST" ∧ req.path = "/files" ∧ MalformedFilesReq req)) :
    strContains (processRequest env st req).body "\"error\"" = true ∧
    (processRequest env st req).status = 200 ∧
    (processRequest env st req).state = st ∧
    (processRequest env st req).files = [] := by
  rcases hm with ⟨hme, hpa, hmal⟩ | ⟨hme, hpa, hmal⟩
  · by_cases hc : (extractJsonValue req.body "from" = "" ||
        extractJsonValue req.body "to" = "" ||
        extractJsonValue req.body "data" = "" : Bool) = true
    · have hbody : handlePostTransaction env.H env.ts st req.body =
          ("\x7b\"error\": \"Missing required fields: from, to, data\"\x7d", st) := by
        unfold handlePostTransaction
        simp only [hc, if_true]
      have hres : processRequest env st req =
          ⟨200, "\x7b\"error\": \"Missing required fields: from, to, data\"\x7d", st, []⟩ := by
        simp +decide [processRequest, hme, hpa, handlePOST, hbody]
      rw [hres]
      exact ⟨(by decide :
        strContains "\x7b\"error\": \"Missing required fields: from, to, data\"\x7d" "\"error\"" = true),
        rfl, rfl, rfl⟩
    · have hdec : decodeBase64 (extractJsonValue req.body "data") = [] := by
        simp only [Bool.or_eq_true, decide_eq_true_eq] at hc
        push_neg at hc
        rcases hmal with h | h | h | h
        · exact absurd h hc.1.1
        · exact absurd h hc.1.2
        · exact absurd h hc.2
        · exact h
      have hbody : handlePostTransaction env.H env.ts st req.body =
          ("\x7b\"error\": \"Invalid base64 data\"\x7d", st) := by
        unfold handlePostTransaction
        simp only [hc, if_false, Bool.false_eq_true, hdec, if_true, reduceIte]
      have hres : processRequest env st req =
          ⟨200, "\x7b\"error\": \"Invalid base64 data\"\x7d", st, []⟩ := by
        simp +decide [processRequest, hme, hpa, handlePOST, hbody]
      rw [hres]
      exact ⟨(by decide :
        strContains "\x7b\"error\": \"Invalid base64 data\"\x7d" "\"error\"" = true),
        rfl, rfl, rfl⟩
  · obtain ⟨hmp, hrest⟩ := hmal
    rcases hrest with hb | ⟨b, hb, hpm⟩
    · have hbody : handlePostFiles env st req =
          ("\x7b\"error\": \"Missing boundary in Content-Type\"\x7d", st, []) := by
        unfold handlePostFiles
        simp only [hmp, if_true, hb]
      have hres : processRequest env st req =
          ⟨200, "\x7b\"error\": \"Missing boundary in Content-Type\"\x7d", st, []⟩ := by
        simp +decide [processRequest, hme, hpa, handlePOST, hbody]
      rw [hres]
      exact ⟨(by decide :
        strContains "\x7b\"error\": \"Missing boundary in Content-Type\"\x7d" "\"error\"" = true),
        rfl, rfl, rfl⟩
    · have hbody : handlePostFiles env st req =
          ("\x7b\"error\": \"Failed to parse multipart data\"\x7d", st, []) := by
        unfold handlePostFiles
        simp only [hmp, if_true, hb, hpm]
      have hres : processRequest env st req =
          ⟨200, "\x7b\"error\": \"Failed to parse multipart data\"\x7d", st, []⟩ := by
        simp +decide [processRequest, hme, hpa, handlePOST, hbody]
      rw [hres]
      exact ⟨(by decide :
        strContains "\x7b\"error\": \"Failed to parse multipart data\"\x7d" "\"error\"" = true),
        rfl, rfl, rfl⟩

theorem claim4_amended_error_recovery_witness :
    strContains (processRequest envW st0
      ⟨"POST", "/transaction", "\x7b\"to\": \"B\"\x7d", "application/json", 5⟩).body
      "\"error\"" = true ∧
    (processRequest envW st0
      ⟨"POST", "/transaction", "\x7b\"to\": \"B\"\x7d", "application/json", 5⟩).status = 200 ∧
    (processRequest envW st0
      ⟨"POST", "/transaction", "\x7b\"to\": \"B\"\x7d", "application/json", 5⟩).state = st0 ∧
    (processRequest envW st0
      ⟨"POST", "/transaction", "\x7b\"to\": \"B\"\x7d", "application/json", 5⟩).files = [] :=
  claim4_amended_error_recovery envW st0
    ⟨"POST", "/transaction", "\x7b\"to\": \"B\"\x7d", "application/json", 5⟩
    (Or.inl ⟨rfl, rfl, Or.inl (by decide)⟩)

/-! ## Claim C8: the concrete fee transaction -/

/-- Request body of the C8 scenario. -/
def feeBody : String :=
  "\x7b\"from\": \"A\", \"to\": \"B\", \"data\": \"aGk=\", \"fee\": \"0.01\"\x7d"

/-- Fixed JSON fragments occur in the success response regardless of
the digest embedded in it. -/
theorem txSuccessResp_fixed_contains (idStr : String) :
    strContains (txSuccessResp idStr "A" "B" 2 10000) "\"status\": \"success\"" = true ∧
    strContains (txSuccessResp idStr "A" "B" 2 10000) "\"data_size\": 2" = true ∧
    strContains (txSuccessResp idStr "A" "B" 2 10000) "\"fee\": 10000" = true := by
  refine ⟨?_, ?_, ?_⟩
  · unfold strContains txSuccessResp
    simp only [String.data_append, List.append_assoc]
    apply findSub_append_left
    decide
  · unfold strContains txSuccessResp
    simp only [String.data_append, List.append_assoc]
    apply findSub_append_right
    apply findSub_append_right
    decide
  · unfold strContains txSuccessResp
    simp only [String.data_append, List.append_assoc]
    apply findSub_append_right
    apply findSub_append_right
    decide

/-- C8. `POST /transaction` with from "A", to "B", data base64("hi")
and fee "0.01" appends exactly one transaction (2 payload bytes, reward
10000 = 0.01 scaled by 1,000,000 through the binary64 arithmetic of
`stod` and the multiply) and answers with the success JSON reporting
`data_size` 2 and `fee` 10000. -/
theorem claim8_fee_transaction (env : RestEnv) (st : WeaveState) :
    (processRequest env st ⟨"POST", "/transaction", feeBody, "application/json", 3⟩).state =
      addTransaction st (mkTransaction env.H "A" "B" [104, 105] 10000 env.ts) ∧
    (processRequest env st
      ⟨"POST", "/transaction", feeBody, "application/json", 3⟩).state.mempool.length =
      st.mempool.length + 1 ∧
    (processRequest env st ⟨"POST", "/transaction", feeBody, "application/json", 3⟩).body =
      txSuccessResp (mkTransaction env.H "A" "B" [104, 105] 10000 env.ts).id
        "A" "B" 2 10000 ∧
    strContains (processRequest env st
      ⟨"POST", "/transaction", feeBody, "application/json", 3⟩).body
      "\"status\": \"success\"" = true ∧
    strContains (processRequest env st
      ⟨"POST", "/transaction", feeBody, "application/json", 3⟩).body
      "\"data_size\": 2" = true ∧
    strContains (processRequest env st
      ⟨"POST", "/transaction", feeBody, "application/json", 3⟩).body
      "\"fee\": 10000" = true := by
  have hstate : (processRequest env st
      ⟨"POST", "/transaction", feeBody, "application/json", 3⟩).state =
      addTransaction st (mkTransaction env.H "A" "B" [104, 105] 10000 env.ts) := rfl
  have hbody : (processRequest env st
      ⟨"POST", "/transaction", feeBody, "application/json", 3⟩).body =
      txSuccessResp (mkTransaction env.H "A" "B" [104, 105] 10000 env.ts).id
        "A" "B" 2 10000 := rfl
  refine ⟨hstate, ?_, hbody, ?_, ?_, ?_⟩
  · rw [hstate]
    simp [addTransaction]
  · rw [hbody]
    exact (txSuccessResp_fixed_contains _).1
  · rw [hbody]
    exact (txSuccessResp_fixed_contains _).2.1
  · rw [hbody]
    exact (txSuccessResp_fixed_contains _).2.2

/-! ## Claim C10: absent fee key defaults to reward 0 -/

/-- Extraction of a key absent from the body yields the empty string
(the `find` of the quoted key fails). -/
theorem extractJsonValue_fee_absent (json : String)
    (h : strContains json "\"fee\"" = false) :
    extractJsonValue json "fee" = "" := by
  unfold strContains at h
  unfold extractJsonValue
  cases hf : findSub (('"' :: "fee".data) ++ ['"']) json.data with
  | none => simp only [hf]
  | some v =>
    have hdata : ("\"fee\"").data = ('"' :: "fee".data) ++ ['"'] := rfl
    rw [hdata, hf] at h
    simp at h

/-- C10. A `POST /transaction` body with non-empty `from`/`to`, a
decodable `data` payload and no `"fee"` key at all is not rejected: the
handler builds the transaction with reward 0 and appends it to the
pool, answering with the success JSON. -/
theorem claim10_absent_fee_reward_zero (H : String → String) (ts : Int)
    (st : WeaveState) (body : String)
    (hfrom : extractJsonValue body "from" ≠ "")
    (hto : extractJsonValue body "to" ≠ "")
    (hdata : decodeBase64 (extractJsonValue body "data") ≠ [])
    (hnofee : strContains body "\"fee\"" = false) :
    handlePostTransaction H ts st body =
      (txSuccessResp (mkTransaction H (extractJsonValue body "from")
          (extractJsonValue body "to")
          (decodeBase64 (extractJsonValue body "data")) 0 ts).id
        (extractJsonValue body "from") (extractJsonValue body "to")
        (decodeBase64 (extractJsonValue body "data")).length 0,
       addTransaction st (mkTransaction H (extractJsonValue body "from")
          (extractJsonValue body "to")
          (decodeBase64 (extractJsonValue body "data")) 0 ts)) ∧
    (mkTransaction H (extractJsonValue body "from") (extractJsonValue body "to")
      (decodeBase64 (extractJsonValue body "data")) 0 ts).reward = 0 := by
  have hfee := extractJsonValue_fee_absent body hnofee
  have hdb : extractJsonValue body "data" ≠ "" := by
    intro h
    apply hdata
    rw [h]
    rfl
  constructor
  · unfold handlePostTransaction
    have hcond : (extractJsonValue body "from" = "" || extractJsonValue body "to" = "" ||
        extractJsonValue body "data" = "" : Bool) = false := by
      simp [hfrom, hto, hdb]
    simp only [hcond, Bool.false_eq_true, if_false, hfee]
    rw [if_neg hdata]
    simp
  · rfl

/-- Request body of the C10 witness: no fee key. -/
def noFeeBody : String := "\x7b\"from\": \"A\", \"to\": \"B\", \"data\": \"aGk=\"\x7d"

theorem claim10_absent_fee_reward_zero_witness :
    (handlePostTransaction H0 0 st0 noFeeBody =
      (txSuccessResp (mkTransaction H0 (extractJsonValue noFeeBody "from")
          (extractJsonValue noFeeBody "to")
          (decodeBase64 (extractJsonValue noFeeBody "data")) 0 0).id
        (extractJsonValue noFeeBody "from") (extractJsonValue noFeeBody "to")
        (decodeBase64 (extractJsonValue noFeeBody "data")).length 0,
       addTransaction st0 (mkTransaction H0 (extractJsonValue noFeeBody "from")
          (extractJsonValue noFeeBody "to")
          (decodeBase64 (extractJsonValue noFeeBody "data")) 0 0))) ∧
    (mkTransaction H0 (extractJsonValue noFeeBody "from")
      (extractJsonValue noFeeBody "to")
      (decodeBase64 (extractJsonValue noFeeBody "data")) 0 0).reward = 0 :=
  claim10_absent_fee_reward_zero H0 0 st0 noFeeBody (by decide) (by decide)
    (by decide) (by decide)
